import Mathlib

/-!
A shallow embedding of the `sight` 2D graphics library and proofs about it.

Modelling conventions:
* `u8`/`u16`/`u32` values are `Nat`; wrapping casts are written with explicit
  `% 2^w`, and the `u32 -> i32` reinterpreting cast is made explicit.
* `i32` values are `Int` (all theorems either hold for all `Int` or pin the
  inputs to concrete small values that fit in `i32`).
* `f32` arithmetic is modelled by exact rational arithmetic (the `Fq`
  fraction type below).  Every floating-point value reached by the theorems
  below is a small integer, a half, or produced by an exactly-representable
  operation on such values, so the rational model agrees with IEEE-754
  single precision on them.  `sqrtf` (an external `libm` routine) is
  abstracted as a function parameter.
* The `Framebuffer` trait (an external capability) is modelled by pure
  functions giving the boolean result of each `write_pixel` call and the
  success of each `flush` call; the canvas state additionally records the
  trace of `write_pixel` calls and the number of `flush` calls, so that
  "performs a surface write" is observable.
-/

namespace SightLib

/-- `Color` with channels in the source's declaration order `b, g, r, a`;
each field models a `u8` and is well-formed when below 256. -/
structure Color where
  b : Nat
  g : Nat
  r : Nat
  a : Nat
deriving DecidableEq

/-- Well-formedness of a `Color`: all four `u8` fields are in range. -/
def Color.wf (c : Color) : Prop :=
  c.b < 256 ∧ c.g < 256 ∧ c.r < 256 ∧ c.a < 256

instance (c : Color) : Decidable c.wf := by
  unfold Color.wf
  exact inferInstance

/-- `Color::rgb`. -/
def Color.rgb (r g b : Nat) : Color := ⟨b, g, r, 255⟩

/-- `Color::rgba`. -/
def Color.rgba (r g b a : Nat) : Color := ⟨b, g, r, a⟩

/-- `Color::to_u32`: `(a << 24) | (r << 16) | (g << 8) | b`.  For in-range
`u8` fields the shifted values do not overlap, so the bitwise or is a sum. -/
def Color.to_u32 (c : Color) : Nat :=
  c.a * 2 ^ 24 + c.r * 2 ^ 16 + c.g * 2 ^ 8 + c.b

/-- `Color::BLACK = Color::rgb(0, 0, 0)` (fully opaque). -/
def Color.BLACK : Color := Color.rgb 0 0 0

/-- `Color::blend`.  The `as u8` cast of each `u32` channel quotient is
modelled by `% 256`. -/
def Color.blend (self bg : Color) : Color :=
  if self.a = 255 then self
  else if self.a = 0 then bg
  else
    let alpha := self.a
    let inv_alpha := 255 - alpha
    { r := (self.r * alpha + bg.r * inv_alpha) / 255 % 256
      g := (self.g * alpha + bg.g * inv_alpha) / 255 % 256
      b := (self.b * alpha + bg.b * inv_alpha) / 255 % 256
      a := 255 }

/-- A blended channel stays below 256, so the modelled `as u8` cast in
`Color.blend` is the identity. -/
theorem blend_channel_lt (x y a : Nat) (hx : x < 256) (hy : y < 256)
    (ha : a ≤ 255) : (x * a + y * (255 - a)) / 255 < 256 := by
  have h1 : x * a + y * (255 - a) ≤ 255 * a + 255 * (255 - a) :=
    Nat.add_le_add (Nat.mul_le_mul_right _ (by omega))
      (Nat.mul_le_mul_right _ (by omega))
  have h2 : 255 * a + 255 * (255 - a) = 255 * 255 := by omega
  have h3 : (x * a + y * (255 - a)) / 255 ≤ 255 * 255 / 255 :=
    Nat.div_le_div_right (by omega)
  omega

/-- Claim C1: for every pair of well-formed colors `c` and `bg`, if
`c.a = 255` then `c.blend bg = c`; if `c.a = 0` it returns `bg`; otherwise
each of the `r`, `g`, `b` channels of the result equals
`(c_channel * c.a + bg_channel * (255 - c.a)) / 255` in integer arithmetic
and the result's alpha channel is 255. -/
theorem blend_spec (c bg : Color) (hc : c.wf) (hbg : bg.wf) :
    (c.a = 255 → c.blend bg = c) ∧
    (c.a = 0 → c.blend bg = bg) ∧
    (c.a ≠ 255 → c.a ≠ 0 →
      (c.blend bg).r = (c.r * c.a + bg.r * (255 - c.a)) / 255 ∧
      (c.blend bg).g = (c.g * c.a + bg.g * (255 - c.a)) / 255 ∧
      (c.blend bg).b = (c.b * c.a + bg.b * (255 - c.a)) / 255 ∧
      (c.blend bg).a = 255) := by
  obtain ⟨hb, hg, hr, ha⟩ := hc
  obtain ⟨hb2, hg2, hr2, ha2⟩ := hbg
  refine ⟨fun h => by simp [Color.blend, h], fun h => by simp [Color.blend, h], ?_⟩
  intro h255 h0
  have ha255 : c.a ≤ 255 := by omega
  simp only [Color.blend, if_neg h255, if_neg h0]
  refine ⟨?_, ?_, ?_, trivial⟩
  · exact Nat.mod_eq_of_lt (blend_channel_lt _ _ _ hr hr2 ha255)
  · exact Nat.mod_eq_of_lt (blend_channel_lt _ _ _ hg hg2 ha255)
  · exact Nat.mod_eq_of_lt (blend_channel_lt _ _ _ hb hb2 ha255)

/-- Witness for C1 at concrete colors. -/
theorem blend_spec_witness :
    ((Color.rgba 10 20 30 100).blend (Color.rgb 1 2 3)).a = 255 :=
  ((blend_spec (Color.rgba 10 20 30 100) (Color.rgb 1 2 3) (by decide)
      (by decide)).2.2 (by decide) (by decide)).2.2.2

/-- `Point`: integer (`i32`) coordinates. -/
structure Point where
  x : Int
  y : Int
deriving DecidableEq

/-- The `Framebuffer` capability (an external collaborator): its reported
dimensions, the boolean result of each `write_pixel(x, y, color)` call, and
the success of the `k`-th `flush` call. -/
structure Framebuffer where
  dims : Nat × Nat
  writeOk : Int → Int → Nat → Bool
  flushOk : Nat → Bool

/-- One observed `write_pixel` call: its coordinates and packed color. -/
structure WriteEv where
  x : Int
  y : Int
  color : Nat
deriving DecidableEq

/-- The state of a `Sight<F>` canvas, extended with the observable trace of
`write_pixel` calls and the number of `flush` calls made so far. -/
structure SightState where
  fb : Framebuffer
  width : Nat
  height : Nat
  dirty : Bool
  writes : List WriteEv
  flushes : Nat

/-- `Sight::new`: reads the dimensions from the framebuffer, dirty starts
false; no writes or flushes have happened yet. -/
def mkSight (fb : Framebuffer) : SightState :=
  ⟨fb, fb.dims.1, fb.dims.2, false, [], 0⟩

/-- The reinterpreting Rust cast `(w : u32) as i32` (two's complement). -/
def u32AsI32 (w : Nat) : Int :=
  ((w : Int) + 2 ^ 31) % 2 ^ 32 - 2 ^ 31

/-- An exact rational, kept unnormalized (no gcd), used to model `f32`
values.  Every `Fq` built by the definitions below has a positive
denominator, so the cross-multiplication comparisons are the rational order.
(`Rat` itself is avoided only because its gcd-normalizing arithmetic does
not reduce under `decide`.) -/
structure Fq where
  num : Int
  den : Int
deriving DecidableEq

/-- Embed an integer (`i32 as f32`, exact for the small values reached). -/
def Fq.ofInt (n : Int) : Fq := ⟨n, 1⟩

/-- Embed a natural number. -/
def Fq.ofNat (n : Nat) : Fq := ⟨(n : Int), 1⟩

/-- The `f32` constant `0.5`. -/
def Fq.half : Fq := ⟨1, 2⟩

/-- Rational addition (unnormalized). -/
def Fq.add (a b : Fq) : Fq := ⟨a.num * b.den + b.num * a.den, a.den * b.den⟩

/-- Rational negation. -/
def Fq.neg (a : Fq) : Fq := ⟨-a.num, a.den⟩

/-- Rational subtraction. -/
def Fq.sub (a b : Fq) : Fq := a.add b.neg

/-- Rational multiplication (unnormalized). -/
def Fq.mul (a b : Fq) : Fq := ⟨a.num * b.num, a.den * b.den⟩

/-- Rational inverse, sign moved to the numerator; `inv 0 = 0` (division by
zero is guarded in the translated code, as it is in the source). -/
def Fq.inv (a : Fq) : Fq :=
  if a.num < 0 then ⟨-a.den, -a.num⟩ else if a.num = 0 then ⟨0, 1⟩ else ⟨a.den, a.num⟩

/-- Rational division. -/
def Fq.div (a b : Fq) : Fq := a.mul b.inv

/-- Rational order by cross multiplication (valid for positive
denominators, which all constructed values have). -/
def Fq.lt (a b : Fq) : Prop := a.num * b.den < b.num * a.den

instance : LT Fq := ⟨Fq.lt⟩

instance (a b : Fq) : Decidable (a < b) := by
  unfold LT.lt instLTFq Fq.lt
  exact inferInstance

/-- Rational order (non-strict) by cross multiplication. -/
def Fq.le (a b : Fq) : Prop := a.num * b.den ≤ b.num * a.den

instance : LE Fq := ⟨Fq.le⟩

instance (a b : Fq) : Decidable (a ≤ b) := by
  unfold LE.le instLEFq Fq.le
  exact inferInstance

/-- Floor of a rational to an integer (denominator positive). -/
def Fq.floor (a : Fq) : Int := Int.fdiv a.num a.den

/-- `f32 == 0.0`, i.e. the numerator vanishes. -/
def Fq.isZero (a : Fq) : Prop := a.num = 0

instance (a : Fq) : Decidable a.isZero := by
  unfold Fq.isZero
  exact inferInstance

/-- `fabsf` / `f32::abs` on the rational model of `f32`. -/
def ratAbs (q : Fq) : Fq := if q < Fq.ofNat 0 then q.neg else q

/-- `floorf` on the rational model of `f32` (result stays an `f32`). -/
def ratFloor (q : Fq) : Fq := Fq.ofInt q.floor

/-- `FloatExt::fract`: `self - self.floor()`. -/
def ratFract (q : Fq) : Fq := q.sub (ratFloor q)

/-- `roundf`: round to nearest, ties away from zero. -/
def ratRound (q : Fq) : Fq :=
  if Fq.ofNat 0 ≤ q then Fq.ofInt (q.add Fq.half).floor
  else Fq.ofInt (-((q.neg.add Fq.half).floor))

/-- The Rust cast `(q : f32) as i32`: truncation toward zero, saturating. -/
def f32AsI32 (q : Fq) : Int :=
  let t : Int := if Fq.ofNat 0 ≤ q then q.floor else -q.neg.floor
  if t < -(2 ^ 31) then -(2 ^ 31) else if t > 2 ^ 31 - 1 then 2 ^ 31 - 1 else t

/-- The Rust cast `(q : f32) as u8`: truncation toward zero, saturating. -/
def f32AsU8 (q : Fq) : Nat :=
  if q < Fq.ofNat 0 then 0 else if q.floor > 255 then 255 else q.floor.toNat

/-- `ClampExt::clamp` on the `f32` model. -/
def ratClamp (v lo hi : Fq) : Fq :=
  if v < lo then lo else if v > hi then hi else v

/-- `Sight::put_pixel`: bounds-check against the `i32`-cast width/height;
out of bounds is a no-op; otherwise one `write_pixel` call is made and the
dirty flag is set iff the write reports success. -/
def put_pixel (s : SightState) (x y : Int) (c : Color) : SightState :=
  if x < 0 ∨ y < 0 ∨ x ≥ u32AsI32 s.width ∨ y ≥ u32AsI32 s.height then s
  else
    { s with
      writes := s.writes ++ [⟨x, y, c.to_u32⟩]
      dirty := if s.fb.writeOk x y c.to_u32 then true else s.dirty }

/-- `Sight::put_pixel_aa`: same bounds check; scales the color's alpha by the
clamped coverage, blends against `Color::BLACK`, then writes. -/
def put_pixel_aa (s : SightState) (x y : Int) (c : Color) (alpha : Fq) :
    SightState :=
  if x < 0 ∨ y < 0 ∨ x ≥ u32AsI32 s.width ∨ y ≥ u32AsI32 s.height then s
  else
    let blended_color := Color.rgba c.r c.g c.b
      (f32AsU8 ((Fq.ofNat c.a).mul (ratClamp alpha (Fq.ofNat 0) (Fq.ofNat 1))))
    let final_color := blended_color.blend Color.BLACK
    { s with
      writes := s.writes ++ [⟨x, y, final_color.to_u32⟩]
      dirty := if s.fb.writeOk x y final_color.to_u32 then true else s.dirty }

/-- The interior loop of `Sight::draw_line`
(`for x in (xpxl1 + 1)..xpxl2`), with the iteration count made explicit.
The loop's `put_pixel_aa` calls do not depend on the canvas state, so the
translation emits the `(x, y, coverage)` arguments of the calls, in call
order; `draw_line` below applies them in that order. -/
def wu_loop (steep : Bool) (gradient : Fq) :
    Nat → Int → Fq → List (Int × Int × Fq)
  | 0, _, _ => []
  | n + 1, x, intery =>
    let y := f32AsI32 (ratFloor intery)
    let frac := ratFract intery
    (if steep then
      [(y, x, (Fq.ofNat 1).sub frac), (y + 1, x, frac)]
    else
      [(x, y, (Fq.ofNat 1).sub frac), (x, y + 1, frac)]) ++
    wu_loop steep gradient n (x + 1) (intery.add gradient)

/-- The `(x, y, coverage)` arguments of the `put_pixel_aa` calls made by
`Sight::draw_line` (Xiaolin Wu's anti-aliased line), in call order: the two
pixels at the first endpoint, the two pixels at the second endpoint, then
the interior loop.  This computation is state-independent in the source, so
it is split from the state-passing part of `draw_line`. -/
def line_pixels (p1 p2 : Point) : List (Int × Int × Fq) :=
  let xa := Fq.ofInt p1.x
  let ya := Fq.ofInt p1.y
  let xb := Fq.ofInt p2.x
  let yb := Fq.ofInt p2.y
  let steep : Bool := decide (ratAbs (yb.sub ya) > ratAbs (xb.sub xa))
  let sw1 := if steep then (ya, xa, yb, xb) else (xa, ya, xb, yb)
  let sw2 :=
    if sw1.1 > sw1.2.2.1 then (sw1.2.2.1, sw1.2.2.2, sw1.1, sw1.2.1) else sw1
  let x0 := sw2.1
  let y0 := sw2.2.1
  let x1 := sw2.2.2.1
  let y1 := sw2.2.2.2
  let dx := x1.sub x0
  let dy := y1.sub y0
  let gradient := if dx.isZero then Fq.ofNat 1 else dy.div dx
  let xend := ratRound x0
  let yend := y0.add (gradient.mul (xend.sub x0))
  let xgap := (Fq.ofNat 1).sub (ratFract (x0.add Fq.half))
  let xpxl1 := f32AsI32 xend
  let ypxl1 := f32AsI32 (ratFloor yend)
  let ep1 :=
    if steep then
      [(ypxl1, xpxl1, ((Fq.ofNat 1).sub (ratFract yend)).mul xgap),
       (ypxl1 + 1, xpxl1, (ratFract yend).mul xgap)]
    else
      [(xpxl1, ypxl1, ((Fq.ofNat 1).sub (ratFract yend)).mul xgap),
       (xpxl1, ypxl1 + 1, (ratFract yend).mul xgap)]
  let intery := yend.add gradient
  let xend2 := ratRound x1
  let yend2 := y1.add (gradient.mul (xend2.sub x1))
  let xgap2 := ratFract (x1.add Fq.half)
  let xpxl2 := f32AsI32 xend2
  let ypxl2 := f32AsI32 (ratFloor yend2)
  let ep2 :=
    if steep then
      [(ypxl2, xpxl2, ((Fq.ofNat 1).sub (ratFract yend2)).mul xgap2),
       (ypxl2 + 1, xpxl2, (ratFract yend2).mul xgap2)]
    else
      [(xpxl2, ypxl2, ((Fq.ofNat 1).sub (ratFract yend2)).mul xgap2),
       (xpxl2, ypxl2 + 1, (ratFract yend2).mul xgap2)]
  ep1 ++ ep2 ++ wu_loop steep gradient (xpxl2 - (xpxl1 + 1)).toNat (xpxl1 + 1) intery

/-- `Sight::draw_line`: applies the `put_pixel_aa` calls computed by
`line_pixels`, in call order, threading the canvas state. -/
def draw_line (s : SightState) (p1 p2 : Point) (c : Color) : SightState :=
  (line_pixels p1 p2).foldl (fun st q => put_pixel_aa st q.1 q.2.1 c q.2.2) s

/-- `Sight::draw_thick_line`.  `sqrtf` is an external `libm` routine and is
abstracted as a parameter of the model; the `thickness <= 1` branch (the one
the theorems below are about) never consults it. -/
def draw_thick_line (sqrtf : Fq → Fq) (s : SightState) (p1 p2 : Point)
    (c : Color) (thickness : Nat) : SightState :=
  if thickness ≤ 1 then draw_line s p1 p2 c
  else
    let dx := Fq.ofInt (p2.x - p1.x)
    let dy := Fq.ofInt (p2.y - p1.y)
    let length := sqrtf ((dx.mul dx).add (dy.mul dy))
    if length.isZero then s
    else
      let nx := dy.neg.div length
      let ny := dx.div length
      let half_thickness := (Fq.ofNat thickness).div (Fq.ofNat 2)
      (List.range thickness).foldl
        (fun st i =>
          let offset := f32AsI32 (((Fq.ofNat i).sub half_thickness).add Fq.half)
          let offset_x := f32AsI32 (nx.mul (Fq.ofInt offset))
          let offset_y := f32AsI32 (ny.mul (Fq.ofInt offset))
          draw_line st ⟨p1.x + offset_x, p1.y + offset_y⟩
            ⟨p2.x + offset_x, p2.y + offset_y⟩ c)
        s

/-- `Sight::present`: flushes only when dirty; a failed flush leaves the
dirty flag set (the `?` operator returns early); a successful flush clears
it.  The returned `Bool` is `true` exactly when the call returns `Ok(())`. -/
def present (s : SightState) : SightState × Bool :=
  if s.dirty = false then (s, true)
  else
    let ok := s.fb.flushOk s.flushes
    let s2 := { s with flushes := s.flushes + 1 }
    if ok then ({ s2 with dirty := false }, true) else (s2, false)

/-- For widths below `2^31` the `u32 as i32` cast is value-preserving. -/
theorem u32AsI32_eq (w : Nat) (hw : w < 2 ^ 31) : u32AsI32 w = (w : Int) := by
  unfold u32AsI32
  omega

/-- An in-bounds `put_pixel_aa` appends exactly one write event at its
coordinates. -/
theorem put_pixel_aa_writes_in (s : SightState) (x y : Int) (c : Color)
    (alpha : Fq)
    (h : ¬(x < 0 ∨ y < 0 ∨ x ≥ u32AsI32 s.width ∨ y ≥ u32AsI32 s.height)) :
    ∃ col, (put_pixel_aa s x y c alpha).writes = s.writes ++ [⟨x, y, col⟩] := by
  unfold put_pixel_aa
  rw [if_neg h]
  exact ⟨_, rfl⟩

/-- `put_pixel_aa` never changes the canvas dimensions. -/
theorem put_pixel_aa_dims (s : SightState) (x y : Int) (c : Color)
    (alpha : Fq) :
    (put_pixel_aa s x y c alpha).width = s.width ∧
    (put_pixel_aa s x y c alpha).height = s.height := by
  unfold put_pixel_aa
  split
  · exact ⟨rfl, rfl⟩
  · exact ⟨rfl, rfl⟩

/-- On the degenerate line from `(0,0)` to `(0,0)`, Wu's algorithm plans the
four endpoint `put_pixel_aa` calls: `(0,0)` at coverage `1/2` and `(0,1)` at
coverage `0`, each twice (the interior loop is empty). -/
theorem line_pixels_zero :
    line_pixels ⟨0, 0⟩ ⟨0, 0⟩ =
      [(0, 0, ⟨1, 2⟩), (0, 1, ⟨0, 2⟩), (0, 0, ⟨1, 2⟩), (0, 1, ⟨0, 2⟩)] := by
  decide

/-- Counterexample to claim C2: on a 1×2 canvas whose writes always succeed,
`draw_line((0,0),(0,0),color)` makes four `write_pixel` calls, at the two
distinct pixels `(0,0)` and `(0,1)` — not exactly one pixel. -/
theorem draw_line_degenerate_cex :
    ((draw_line (mkSight ⟨(1, 2), fun _ _ _ => true, fun _ => true⟩)
          ⟨0, 0⟩ ⟨0, 0⟩ (Color.rgb 255 0 0)).writes.map
        (fun e => (e.x, e.y))) = [(0, 0), (0, 1), (0, 0), (0, 1)] ∧
    ((draw_line (mkSight ⟨(1, 2), fun _ _ _ => true, fun _ => true⟩)
          ⟨0, 0⟩ ⟨0, 0⟩ (Color.rgb 255 0 0)).writes.length ≠ 1) := by
  constructor
  · decide
  · decide

/-- Folding in-bounds `put_pixel_aa` calls over a pixel plan appends
exactly the planned coordinates to the write trace. -/
theorem foldl_aa_writes (c : Color) (plan : List (Int × Int × Fq)) :
    ∀ s : SightState,
      (∀ q ∈ plan, ¬(q.1 < 0 ∨ q.2.1 < 0 ∨ q.1 ≥ u32AsI32 s.width ∨
        q.2.1 ≥ u32AsI32 s.height)) →
      ((plan.foldl (fun st q => put_pixel_aa st q.1 q.2.1 c q.2.2) s).writes.map
          (fun e => (e.x, e.y))) =
        s.writes.map (fun e => (e.x, e.y)) ++
          plan.map (fun q => (q.1, q.2.1)) := by
  induction plan with
  | nil =>
    intro s _
    simp
  | cons q l ih =>
    intro s h
    rw [List.foldl_cons]
    obtain ⟨dw, dh⟩ := put_pixel_aa_dims s q.1 q.2.1 c q.2.2
    have h2 : ∀ q2 ∈ l, ¬(q2.1 < 0 ∨ q2.2.1 < 0 ∨
        q2.1 ≥ u32AsI32 (put_pixel_aa s q.1 q.2.1 c q.2.2).width ∨
        q2.2.1 ≥ u32AsI32 (put_pixel_aa s q.1 q.2.1 c q.2.2).height) := by
      rw [dw, dh]
      intro q2 hq2
      exact h q2 (List.mem_cons_of_mem _ hq2)
    rw [ih _ h2]
    obtain ⟨col, ew⟩ := put_pixel_aa_writes_in s q.1 q.2.1 c q.2.2
      (h q (List.mem_cons_self _ _))
    rw [ew]
    simp

/-- Claim C2 (amended): for every color and every canvas with
`1 ≤ width < 2^31` and `2 ≤ height < 2^31`, `draw_line` from `(0,0)` to
`(0,0)` performs exactly four surface writes: pixel `(0,0)` twice (at half
coverage) and pixel `(0,1)` twice (at zero coverage), in that call order. -/
theorem draw_line_degenerate (fb : Framebuffer) (c : Color)
    (h1 : 1 ≤ fb.dims.1) (h2 : fb.dims.1 < 2 ^ 31)
    (h3 : 2 ≤ fb.dims.2) (h4 : fb.dims.2 < 2 ^ 31) :
    ((draw_line (mkSight fb) ⟨0, 0⟩ ⟨0, 0⟩ c).writes.map
      (fun e => (e.x, e.y))) = [(0, 0), (0, 1), (0, 0), (0, 1)] := by
  have hin : ∀ q ∈ ([(0, 0, ⟨1, 2⟩), (0, 1, ⟨0, 2⟩), (0, 0, ⟨1, 2⟩),
      (0, 1, ⟨0, 2⟩)] : List (Int × Int × Fq)),
      ¬(q.1 < 0 ∨ q.2.1 < 0 ∨ q.1 ≥ u32AsI32 (mkSight fb).width ∨
        q.2.1 ≥ u32AsI32 (mkSight fb).height) := by
    intro q hq
    simp only [List.mem_cons, List.not_mem_nil, or_false] at hq
    rcases hq with rfl | rfl | rfl | rfl <;>
      · simp only [mkSight, u32AsI32]
        omega
  unfold draw_line
  rw [line_pixels_zero]
  rw [foldl_aa_writes c _ (mkSight fb) hin]
  simp [mkSight]

/-- Witness for the amended C2 theorem at a concrete canvas and color. -/
theorem draw_line_degenerate_witness :
    ((draw_line (mkSight ⟨(3, 3), fun _ _ _ => false, fun _ => true⟩)
        ⟨0, 0⟩ ⟨0, 0⟩ (Color.rgb 7 8 9)).writes.map
      (fun e => (e.x, e.y))) = [(0, 0), (0, 1), (0, 0), (0, 1)] :=
  draw_line_degenerate ⟨(3, 3), fun _ _ _ => false, fun _ => true⟩
    (Color.rgb 7 8 9) (by decide) (by decide) (by decide) (by decide)

/-- Counterexample to claim C3: for a canvas reporting width `2^31` (a
possible `u32` dimension), the claim's in-bounds pixel `(0,0)` — we have
`0 < width` — is nevertheless never written: the source compares against
`width as i32`, which reinterprets `2^31` as a negative `i32`, so
`put_pixel` returns early without calling `write_pixel`. -/
theorem put_pixel_cast_cex :
    (put_pixel (mkSight ⟨(2 ^ 31, 1), fun _ _ _ => true, fun _ => true⟩)
        0 0 (Color.rgb 255 0 0)).writes = [] ∧
    (0 : Int) <
      ((mkSight ⟨(2 ^ 31, 1), fun _ _ _ => true, fun _ => true⟩).width : Int) ∧
    (0 : Int) <
      ((mkSight ⟨(2 ^ 31, 1), fun _ _ _ => true, fun _ => true⟩).height : Int)
    := by
  refine ⟨by decide, by decide, by decide⟩

/-- Claim C3 (amended): for canvases whose width and height are below
`2^31` (so the internal `u32 as i32` casts preserve value), `put_pixel`
out of `[0,width) × [0,height)` performs no surface write and leaves the
dirty flag unchanged, and in bounds it appends exactly the packed-color
write and sets dirty exactly when the write reports success. -/
theorem put_pixel_spec (s : SightState) (x y : Int) (c : Color)
    (hw : s.width < 2 ^ 31) (hh : s.height < 2 ^ 31) :
    ((x < 0 ∨ y < 0 ∨ (s.width : Int) ≤ x ∨ (s.height : Int) ≤ y) →
      put_pixel s x y c = s) ∧
    (0 ≤ x → x < (s.width : Int) → 0 ≤ y → y < (s.height : Int) →
      put_pixel s x y c =
        { s with
          writes := s.writes ++ [⟨x, y, c.to_u32⟩]
          dirty := if s.fb.writeOk x y c.to_u32 then true else s.dirty }) := by
  have e1 : u32AsI32 s.width = (s.width : Int) := u32AsI32_eq _ hw
  have e2 : u32AsI32 s.height = (s.height : Int) := u32AsI32_eq _ hh
  constructor
  · intro h
    unfold put_pixel
    rw [e1, e2, if_pos (by omega)]
  · intro hx1 hx2 hy1 hy2
    unfold put_pixel
    rw [e1, e2, if_neg (by omega)]

/-- Witness for the amended C3 theorem: an out-of-bounds call is the
identity on a concrete canvas. -/
theorem put_pixel_spec_witness :
    put_pixel (mkSight ⟨(4, 4), fun _ _ _ => true, fun _ => true⟩) 9 0
        (Color.rgb 1 2 3) =
      mkSight ⟨(4, 4), fun _ _ _ => true, fun _ => true⟩ :=
  (put_pixel_spec (mkSight ⟨(4, 4), fun _ _ _ => true, fun _ => true⟩) 9 0
      (Color.rgb 1 2 3) (by decide) (by decide)).1 (by decide)

/-- Counterexample to claim C4: on a canvas whose surface flush always
fails, two consecutive `present()` calls with no intervening draw invoke
`flush` twice (the failed first flush leaves the dirty flag set, so the
retry flushes again). -/
theorem present_retry_cex :
    (present (present
        { mkSight ⟨(4, 4), fun _ _ _ => true, fun _ => false⟩ with
          dirty := true }).1).1.flushes = 2 ∧
    (present
        { mkSight ⟨(4, 4), fun _ _ _ => true, fun _ => false⟩ with
          dirty := true }).1.flushes = 1 := by
  exact ⟨by decide, by decide⟩

/-- Claim C4 (amended): `present()` on a clean canvas never invokes flush
(it returns the state unchanged), and after a *successful* `present()` the
canvas is clean, so a second `present()` with no intervening draw invokes
no further flush; only a failed flush (which leaves the canvas dirty) can
lead to another flush on retry. -/
theorem present_spec (s : SightState) :
    (s.dirty = false → present s = (s, true)) ∧
    (∀ s1, present s = (s1, true) →
      s1.dirty = false ∧ present s1 = (s1, true)) := by
  constructor
  · intro h
    unfold present
    rw [if_pos h]
  · intro s1 h
    unfold present at h
    by_cases hd : s.dirty = false
    · rw [if_pos hd] at h
      have hs : s = s1 := congrArg Prod.fst h
      subst hs
      exact ⟨hd, by unfold present; rw [if_pos hd]⟩
    · rw [if_neg hd] at h
      by_cases hok : s.fb.flushOk s.flushes = true
      · rw [if_pos hok] at h
        have hs : s1 = { s with flushes := s.flushes + 1, dirty := false } :=
          (congrArg Prod.fst h).symm
        subst hs
        exact ⟨rfl, by unfold present; rw [if_pos rfl]⟩
      · rw [if_neg hok] at h
        have : false = true := congrArg Prod.snd h
        exact absurd this (by decide)

/-- Witness for the amended C4 theorem: a clean canvas presents as a
no-op. -/
theorem present_spec_witness :
    present (mkSight ⟨(1, 1), fun _ _ _ => true, fun _ => true⟩) =
      (mkSight ⟨(1, 1), fun _ _ _ => true, fun _ => true⟩, true) :=
  (present_spec (mkSight ⟨(1, 1), fun _ _ _ => true, fun _ => true⟩)).1 rfl

/-- Claim C5: for every `sqrtf` model, canvas state, endpoints, color and
thickness at most 1, `draw_thick_line` is literally `draw_line` on the same
arguments (the source's first branch), hence produces the identical
sequence of surface writes. -/
theorem draw_thick_line_thin (sqrtf : Fq → Fq) (s : SightState)
    (p1 p2 : Point) (c : Color) (thickness : Nat) (h : thickness ≤ 1) :
    draw_thick_line sqrtf s p1 p2 c thickness = draw_line s p1 p2 c := by
  unfold draw_thick_line
  rw [if_pos h]

/-- Witness for C5 at thickness 1 on a concrete canvas. -/
theorem draw_thick_line_thin_witness :
    draw_thick_line (fun q => q)
        (mkSight ⟨(8, 8), fun _ _ _ => true, fun _ => true⟩)
        ⟨1, 1⟩ ⟨5, 2⟩ (Color.rgb 9 9 9) 1 =
      draw_line (mkSight ⟨(8, 8), fun _ _ _ => true, fun _ => true⟩)
        ⟨1, 1⟩ ⟨5, 2⟩ (Color.rgb 9 9 9) :=
  draw_thick_line_thin (fun q => q)
    (mkSight ⟨(8, 8), fun _ _ _ => true, fun _ => true⟩)
    ⟨1, 1⟩ ⟨5, 2⟩ (Color.rgb 9 9 9) 1 (by decide)

/-! ## Bitmap (BDF) font decoder — `src/bdf.rs`

Characters are modelled by their `u32` codepoints; text is a `List Nat`.
`Glyph::draw` takes a `set_pixel` callback and always calls it with the same
color argument, so the model returns the list of `(x, y)` positions passed
to `set_pixel`, in call order. -/

/-- `bdf::FontType`. -/
inductive FontType where
  | BDF
deriving DecidableEq

/-- `bdf::Glyph`. -/
structure Glyph where
  encoding : Nat
  bitmap : List Nat
  width : Nat
  height : Nat
  offset_x : Int
  offset_y : Int
  device_width : Nat
deriving DecidableEq

/-- `(self.width + 7) / 8`, the packed bytes per bitmap row. -/
def Glyph.bytesPerRow (g : Glyph) : Nat := (g.width + 7) / 8

/-- The bitmap byte index read for `(row, col)`:
`row * bytes_per_row + col / 8`. -/
def Glyph.byteIndex (g : Glyph) (row col : Nat) : Nat :=
  row * g.bytesPerRow + col / 8

/-- `Glyph::draw`: for each `(row, col)` in row-major order, test bit
`7 - col % 8` of the byte at `byteIndex` and, when set, call `set_pixel`
at `(x + col, y + row)`.  The source indexes the bitmap without a bounds
check (`self.bitmap[byte_index]`); the model reads `getD _ 0`, and the
safety theorem shows the index stays in bounds whenever the buffer holds
`height * bytes_per_row` bytes.  The `col as i32` / `row as i32` casts and
the `+` on the pen are modelled in exact integer arithmetic: they agree
with the source whenever the glyph box and pen fit in `i32`, and overflow
plays no role in the indexing claim proved below. -/
def Glyph.draw (g : Glyph) (x y : Int) : List (Int × Int) :=
  (List.range g.height).flatMap (fun row =>
    (List.range g.width).filterMap (fun col =>
      let byte := g.bitmap.getD (g.byteIndex row col) 0
      if byte &&& (1 <<< (7 - col % 8)) ≠ 0 then
        some (x + (col : Int), y + (row : Int))
      else none))

/-- `bdf::Font` with the `BTreeMap<u32, Glyph>` modelled as an association
list with unique keys (insertion replaces an existing key).  Text is kept
as the underlying bytes (`List Nat`), as in the `&[u8]` the parser reads. -/
structure Font where
  font_type : FontType
  font_name : List Nat
  size : Nat
  bounding_box : Nat × Nat × Int × Int
  glyphs : List (Nat × Glyph)

/-- `BTreeMap::get`. -/
def glyphsGet : List (Nat × Glyph) → Nat → Option Glyph
  | [], _ => none
  | (k0, v0) :: rest, k => if k0 = k then some v0 else glyphsGet rest k

/-- `BTreeMap::insert` (replaces the value if the key is present). -/
def glyphsInsert : List (Nat × Glyph) → Nat → Glyph → List (Nat × Glyph)
  | [], k, v => [(k, v)]
  | (k0, v0) :: rest, k, v =>
    if k0 = k then (k, v) :: rest else (k0, v0) :: glyphsInsert rest k v

/-- `Font::get_glyph`. -/
def Font.get_glyph (f : Font) (ch : Nat) : Option Glyph :=
  glyphsGet f.glyphs ch

/-- `Font::text_height`: the bounding-box height. -/
def Font.text_height (f : Font) : Nat := f.bounding_box.2.1

/-- `Font::draw_char`: draws a mapped glyph and returns its advance
(`glyph.width as i32`); for an unmapped codepoint draws nothing and
returns the font bounding-box width (`bounding_box.0 as i32`).  The
`u32 as i32` casts are modelled as exact (they agree with the source for
widths below `2^31`). -/
def Font.draw_char (f : Font) (ch : Nat) (x y : Int) :
    List (Int × Int) × Int :=
  match f.get_glyph ch with
  | some glyph => (glyph.draw x y, (glyph.width : Int))
  | none => ([], (f.bounding_box.1 : Int))

/-- `Font::draw_text`: iterates the characters, accumulating the
`set_pixel` trace and the pen position; `\n` (codepoint 10) resets the pen
x to the starting `x` and advances the pen y by the line height. -/
def Font.draw_text (f : Font) (text : List Nat) (x y : Int) :
    List (Int × Int) × Int × Int :=
  text.foldl
    (fun acc ch =>
      if ch = 10 then (acc.1, x, acc.2.2 + (f.text_height : Int))
      else
        let r := f.draw_char ch acc.2.1 acc.2.2
        (acc.1 ++ r.1, acc.2.1 + r.2, acc.2.2))
    ([], x, y)

/-- A concrete glyph whose bitmap width (3) differs from its declared
device width (5). -/
def glyphCexA : Glyph := ⟨65, [128], 3, 1, 0, 0, 5⟩

/-- A font mapping codepoint 65 to `glyphCexA`. -/
def fontCex : Font := ⟨FontType.BDF, [], 12, (7, 11, 0, 0), [(65, glyphCexA)]⟩

/-- Counterexample to claim C6: drawing `"A"` with a font whose glyph for
`A` has bitmap width 3 but device width 5 advances the pen by 3 (the
bitmap width), not by the glyph's device width. -/
theorem draw_text_advance_cex :
    fontCex.get_glyph 65 = some glyphCexA ∧
    glyphCexA.device_width = 5 ∧
    (fontCex.draw_text [65] 0 0).2.1 = 3 ∧
    (fontCex.draw_text [65] 0 0).2.1 ≠ 0 + 5 := by
  refine ⟨by decide, by decide, by decide, by decide⟩

/-- Claim C6 (amended): `draw_text` advances the pen after each mapped
glyph by that glyph's *bitmap width* (`BBX` width, not its device width),
by the font's fallback bounding-box width for unmapped codepoints, and on
an embedded newline resets pen x to the start and advances pen y by the
font's line height. -/
theorem draw_text_pen (f : Font) (text : List Nat) (ch : Nat) (x y : Int) :
    (f.draw_text (text ++ [ch]) x y).2 =
      (if ch = 10 then
        (x, (f.draw_text text x y).2.2 + (f.text_height : Int))
      else
        match f.get_glyph ch with
        | some glyph => ((f.draw_text text x y).2.1 + (glyph.width : Int),
            (f.draw_text text x y).2.2)
        | none => ((f.draw_text text x y).2.1 + (f.bounding_box.1 : Int),
            (f.draw_text text x y).2.2)) := by
  unfold Font.draw_text
  rw [List.foldl_append, List.foldl_cons, List.foldl_nil]
  by_cases h : ch = 10
  · rw [if_pos h, if_pos h]
  · rw [if_neg h, if_neg h]
    unfold Font.draw_char
    cases hg : f.get_glyph ch
    · rfl
    · rfl

/-- Claim C10: whenever a glyph's bitmap holds at least
`height * ceil(width / 8)` bytes, every bitmap byte index read by
`Glyph::draw` is in bounds, and every `set_pixel` call targets
`(x + col, y + row)` with `col < width` and `row < height`. -/
theorem glyph_draw_safe (g : Glyph) (x y : Int)
    (h : g.height * ((g.width + 7) / 8) ≤ g.bitmap.length) :
    (∀ row col : Nat, row < g.height → col < g.width →
      g.byteIndex row col < g.bitmap.length) ∧
    (∀ p ∈ g.draw x y, ∃ col row : Nat, col < g.width ∧ row < g.height ∧
      p = (x + (col : Int), y + (row : Int))) := by
  constructor
  · intro row col hr hc
    unfold Glyph.byteIndex Glyph.bytesPerRow
    have hcol : col / 8 < (g.width + 7) / 8 := by omega
    calc row * ((g.width + 7) / 8) + col / 8
        < (row + 1) * ((g.width + 7) / 8) := by
          have : (row + 1) * ((g.width + 7) / 8)
              = row * ((g.width + 7) / 8) + (g.width + 7) / 8 := by ring
          omega
      _ ≤ g.height * ((g.width + 7) / 8) := Nat.mul_le_mul_right _ (by omega)
      _ ≤ g.bitmap.length := h
  · intro p hp
    unfold Glyph.draw at hp
    simp only [List.mem_flatMap, List.mem_filterMap, List.mem_range] at hp
    obtain ⟨row, hrow, col, hcol, he⟩ := hp
    split at he
    · exact ⟨col, row, hcol, hrow, (Option.some.injEq _ _ ▸ he).symm⟩
    · exact absurd he (by simp)

/-- Witness for C10 at a concrete 1×1 glyph with a 1-byte bitmap. -/
theorem glyph_draw_safe_witness :
    (⟨65, [128], 1, 1, 0, 0, 1⟩ : Glyph).byteIndex 0 0 <
      (⟨65, [128], 1, 1, 0, 0, 1⟩ : Glyph).bitmap.length :=
  (glyph_draw_safe ⟨65, [128], 1, 1, 0, 0, 1⟩ 0 0 (by decide)).1 0 0
    (by decide) (by decide)

/-! ## BDF parser — `parse_bdf_font` / `parse_line`

The source parses a `&[u8]`, splitting at `\n`, decoding each line as UTF-8,
trimming and dispatching on ASCII keywords.  The model keeps lines as byte
lists; the keyword constants below spell the source's string literals in
ASCII.  (For ASCII input this is exactly the source's behavior; a non-UTF-8
line is decoded as `""` and skipped by the source, a difference that cannot
insert a glyph and so does not affect the key invariant proved here.) -/

/-- Whitespace bytes, as in Rust's `char::is_whitespace` restricted to
ASCII: space and the 0x09–0x0D controls. -/
def isWsByte (b : Nat) : Bool := b = 32 || (9 ≤ b && b ≤ 13)

/-- `str::trim` on a byte list. -/
def strTrim (l : List Nat) : List Nat :=
  ((l.dropWhile isWsByte).reverse.dropWhile isWsByte).reverse

/-- `str::split_whitespace`: maximal non-whitespace runs. -/
def splitWs (l : List Nat) : List (List Nat) :=
  (l.foldr
    (fun b acc =>
      if isWsByte b then [] :: acc else (b :: acc.headD []) :: acc.tail)
    [[]]).filter (fun t => t ≠ [])

/-- Decimal digit value of a byte. -/
def digitVal? (b : Nat) : Option Nat :=
  if 48 ≤ b ∧ b ≤ 57 then some (b - 48) else none

/-- All-decimal-digits accumulator used by the integer parsers. -/
def parseDigitsAux : List Nat → Nat → Option Nat
  | [], acc => some acc
  | b :: rest, acc =>
    match digitVal? b with
    | some d => parseDigitsAux rest (acc * 10 + d)
    | none => none

/-- The digits of a non-empty all-digit byte list, or `none`. -/
def parseDigits (l : List Nat) : Option Nat :=
  if l = [] then none else parseDigitsAux l 0

/-- Rust `str::parse::<u32>().unwrap_or(0)`: optional leading `+`, all
digits, in `u32` range — anything else yields 0. -/
def parseU32 (l : List Nat) : Nat :=
  let l2 := if l.head? = some 43 then l.tail else l
  match parseDigits l2 with
  | some v => if v ≤ 4294967295 then v else 0
  | none => 0

/-- Rust `str::parse::<i32>().unwrap_or(0)`: optional sign, all digits, in
`i32` range — anything else yields 0. -/
def parseI32 (l : List Nat) : Int :=
  match l.head? with
  | some 45 =>
    (match parseDigits l.tail with
     | some v => if v ≤ 2147483648 then -(v : Int) else 0
     | none => 0)
  | some 43 =>
    (match parseDigits l.tail with
     | some v => if v ≤ 2147483647 then (v : Int) else 0
     | none => 0)
  | _ =>
    (match parseDigits l with
     | some v => if v ≤ 2147483647 then (v : Int) else 0
     | none => 0)

/-- Hexadecimal digit value of a byte. -/
def hexDigitVal? (b : Nat) : Option Nat :=
  if 48 ≤ b ∧ b ≤ 57 then some (b - 48)
  else if 97 ≤ b ∧ b ≤ 102 then some (b - 87)
  else if 65 ≤ b ∧ b ≤ 70 then some (b - 55)
  else none

/-- The bitmap-row hex decoder: `u8::from_str_radix` on each 2-byte chunk
(1 byte at an odd tail), pushing only chunks that parse.  (Rust's
`from_str_radix` also tolerates a leading `+` inside a chunk; hex bitmap
rows never contain one, and nothing below depends on that corner.) -/
def hexBytes : List Nat → List Nat
  | [] => []
  | [b] =>
    (match hexDigitVal? b with
     | some d => [d]
     | none => [])
  | b1 :: b2 :: rest =>
    (match hexDigitVal? b1, hexDigitVal? b2 with
     | some d1, some d2 => [16 * d1 + d2]
     | _, _ => []) ++ hexBytes rest

/-- The `&mut` state threaded through `parse_line`. -/
structure ParserState where
  font : Font
  current_glyph : Option Glyph
  in_bitmap : Bool
  bitmap_data : List Nat

/-- `bdf::parse_line`, dispatching on the source's keywords (spelled in
ASCII bytes): `FONT `, `SIZE `, `FONTBOUNDINGBOX `, `STARTCHAR`,
`ENCODING `, `DWIDTH `, `BBX `, `BITMAP`, `ENDCHAR`, else bitmap hex rows
while inside a `BITMAP` block.  `ENDCHAR` takes the current glyph and
inserts it only when `encoding < 256`. -/
def parse_line (line : List Nat) (st : ParserState) : ParserState :=
  if [70, 79, 78, 84, 32].isPrefixOf line then
    { st with font := { st.font with font_name := strTrim (line.drop 5) } }
  else if [83, 73, 90, 69, 32].isPrefixOf line then
    { st with font := { st.font with size := parseU32 (strTrim (line.drop 5)) } }
  else if [70, 79, 78, 84, 66, 79, 85, 78, 68, 73, 78, 71, 66, 79, 88,
      32].isPrefixOf line then
    if 4 ≤ (splitWs (line.drop 16)).length then
      { st with
        font := { st.font with
          bounding_box := (parseU32 ((splitWs (line.drop 16)).getD 0 []),
            parseU32 ((splitWs (line.drop 16)).getD 1 []),
            parseI32 ((splitWs (line.drop 16)).getD 2 []),
            parseI32 ((splitWs (line.drop 16)).getD 3 [])) } }
    else st
  else if [83, 84, 65, 82, 84, 67, 72, 65, 82].isPrefixOf line then
    { st with current_glyph := some ⟨0, [], 0, 0, 0, 0, 0⟩ }
  else if [69, 78, 67, 79, 68, 73, 78, 71, 32].isPrefixOf line then
    match st.current_glyph with
    | some g =>
      { st with
        current_glyph := some ({ g with encoding := parseU32 (strTrim (line.drop 9)) }) }
    | none => st
  else if [68, 87, 73, 68, 84, 72, 32].isPrefixOf line then
    match st.current_glyph with
    | some g =>
      if splitWs (line.drop 7) ≠ [] then
        { st with
          current_glyph :=
            some ({ g with device_width := parseU32 ((splitWs (line.drop 7)).getD 0 []) }) }
      else st
    | none => st
  else if [66, 66, 88, 32].isPrefixOf line then
    match st.current_glyph with
    | some g =>
      if 4 ≤ (splitWs (line.drop 4)).length then
        { st with current_glyph := some ({ g with
            width := parseU32 ((splitWs (line.drop 4)).getD 0 [])
            height := parseU32 ((splitWs (line.drop 4)).getD 1 [])
            offset_x := parseI32 ((splitWs (line.drop 4)).getD 2 [])
            offset_y := parseI32 ((splitWs (line.drop 4)).getD 3 []) }) }
      else st
    | none => st
  else if line = [66, 73, 84, 77, 65, 80] then
    { st with in_bitmap := true, bitmap_data := [] }
  else if line = [69, 78, 68, 67, 72, 65, 82] then
    match st.current_glyph with
    | some g =>
      if g.encoding < 256 then
        { st with
          font := { st.font with
            glyphs := glyphsInsert st.font.glyphs g.encoding
              ({ g with bitmap := st.bitmap_data }) }
          current_glyph := none
          bitmap_data := []
          in_bitmap := false }
      else { st with current_glyph := none, in_bitmap := false }
    | none => { st with in_bitmap := false }
  else if st.in_bitmap then
    { st with bitmap_data := st.bitmap_data ++ hexBytes (strTrim line) }
  else st

/-- The line splitter of `parse_bdf_font`: segments between `\n` bytes. -/
def splitBdfLines (data : List Nat) : List (List Nat) :=
  data.foldr
    (fun b acc =>
      if b = 10 then [] :: acc else (b :: acc.headD []) :: acc.tail)
    [[]]

/-- `bdf::parse_bdf_font`: split the bytes at newlines, trim each line,
skip empty lines, and feed the rest to `parse_line`, starting from an
empty font (the source's `Ok` wrapper is omitted: it never fails). -/
def parse_bdf_font (data : List Nat) : Font :=
  ((splitBdfLines data).foldl
    (fun st line =>
      let l := strTrim line
      if l = [] then st else parse_line l st)
    ⟨⟨FontType.BDF, [], 0, (0, 0, 0, 0), []⟩, none, false, []⟩).font

/-- Keys after a `glyphsInsert` are the inserted key or old keys. -/
theorem glyphsInsert_keys :
    ∀ (gs : List (Nat × Glyph)) (k : Nat) (v : Glyph) (k2 : Nat),
      k2 ∈ (glyphsInsert gs k v).map Prod.fst →
      k2 = k ∨ k2 ∈ gs.map Prod.fst := by
  intro gs
  induction gs with
  | nil =>
    intro k v k2 h
    simp [glyphsInsert] at h
    exact Or.inl h
  | cons p rest ih =>
    obtain ⟨k0, v0⟩ := p
    intro k v k2 h
    unfold glyphsInsert at h
    by_cases he : k0 = k
    · rw [if_pos he] at h
      simp at h
      rcases h with h | h
      · exact Or.inl h
      · exact Or.inr (by simp; right; exact h)
    · rw [if_neg he] at h
      simp at h
      rcases h with h | h
      · exact Or.inr (by simp; left; exact h)
      · rcases ih k v k2 (by simpa using h) with h2 | h2
        · exact Or.inl h2
        · exact Or.inr (by simp at h2 ⊢; right; exact h2)

/-- `parse_line` either leaves the glyph map unchanged or inserts one glyph
under a key below 256 (the `ENDCHAR` branch's guard). -/
theorem parse_line_glyphs (line : List Nat) (st : ParserState) :
    (parse_line line st).font.glyphs = st.font.glyphs ∨
    ∃ k g, k < 256 ∧
      (parse_line line st).font.glyphs = glyphsInsert st.font.glyphs k g := by
  unfold parse_line
  by_cases h1 : [70, 79, 78, 84, 32].isPrefixOf line = true
  · rw [if_pos h1]
    left
    rfl
  rw [if_neg h1]
  by_cases h2 : [83, 73, 90, 69, 32].isPrefixOf line = true
  · rw [if_pos h2]
    left
    rfl
  rw [if_neg h2]
  by_cases h3 : [70, 79, 78, 84, 66, 79, 85, 78, 68, 73, 78, 71, 66, 79, 88,
      32].isPrefixOf line = true
  · rw [if_pos h3]
    left
    by_cases h3b : 4 ≤ (splitWs (line.drop 16)).length
    · rw [if_pos h3b]
    · rw [if_neg h3b]
  rw [if_neg h3]
  by_cases h4 : [83, 84, 65, 82, 84, 67, 72, 65, 82].isPrefixOf line = true
  · rw [if_pos h4]
    left
    rfl
  rw [if_neg h4]
  by_cases h5 : [69, 78, 67, 79, 68, 73, 78, 71, 32].isPrefixOf line = true
  · rw [if_pos h5]
    left
    cases st.current_glyph <;> rfl
  rw [if_neg h5]
  by_cases h6 : [68, 87, 73, 68, 84, 72, 32].isPrefixOf line = true
  · rw [if_pos h6]
    left
    cases st.current_glyph with
    | none => rfl
    | some g =>
      dsimp only
      by_cases h6b : splitWs (line.drop 7) ≠ []
      · rw [if_pos h6b]
      · rw [if_neg h6b]
  rw [if_neg h6]
  by_cases h7 : [66, 66, 88, 32].isPrefixOf line = true
  · rw [if_pos h7]
    left
    cases st.current_glyph with
    | none => rfl
    | some g =>
      dsimp only
      by_cases h7b : 4 ≤ (splitWs (line.drop 4)).length
      · rw [if_pos h7b]
      · rw [if_neg h7b]
  rw [if_neg h7]
  by_cases h8 : line = [66, 73, 84, 77, 65, 80]
  · rw [if_pos h8]
    left
    rfl
  rw [if_neg h8]
  by_cases h9 : line = [69, 78, 68, 67, 72, 65, 82]
  · rw [if_pos h9]
    cases st.current_glyph with
    | none => left; rfl
    | some g =>
      dsimp only
      by_cases henc : g.encoding < 256
      · right
        refine ⟨g.encoding, { g with bitmap := st.bitmap_data }, henc, ?_⟩
        rw [if_pos henc]
      · left
        rw [if_neg henc]
  rw [if_neg h9]
  by_cases h10 : st.in_bitmap = true
  · rw [if_pos h10]
    left
    rfl
  · rw [if_neg h10]
    left
    rfl

/-- The fold in `parse_bdf_font` preserves "all glyph keys below 256". -/
theorem parse_keys_aux (ls : List (List Nat)) :
    ∀ st : ParserState, (∀ k ∈ st.font.glyphs.map Prod.fst, k < 256) →
      ∀ k ∈ ((ls.foldl
          (fun st2 line =>
            let l := strTrim line
            if l = [] then st2 else parse_line l st2)
          st).font.glyphs.map Prod.fst),
        k < 256 := by
  induction ls with
  | nil =>
    intro st h
    exact h
  | cons l rest ih =>
    intro st h
    rw [List.foldl_cons]
    apply ih
    show ∀ k ∈ ((if strTrim l = [] then st
        else parse_line (strTrim l) st).font.glyphs.map Prod.fst), k < 256
    by_cases he : strTrim l = []
    · rw [if_pos he]
      exact h
    · rw [if_neg he]
      rcases parse_line_glyphs (strTrim l) st with heq | ⟨k0, g0, hk0, heq⟩
      · rw [heq]
        exact h
      · rw [heq]
        intro k hk
        rcases glyphsInsert_keys _ _ _ _ hk with rfl | hmem
        · exact hk0
        · exact h k hmem

/-- Claim C9: for every input byte buffer, every key of the parsed font's
glyph map is below 256; and an `ENDCHAR` record whose current glyph
declares an encoding of 256 or more is consumed (the glyph-in-progress is
dropped) without inserting anything. -/
theorem bdf_glyph_keys :
    (∀ data : List Nat, ∀ k ∈ (parse_bdf_font data).glyphs.map Prod.fst,
      k < 256) ∧
    (∀ st : ParserState, ∀ g : Glyph, st.current_glyph = some g →
      256 ≤ g.encoding →
      (parse_line [69, 78, 68, 67, 72, 65, 82] st).font.glyphs =
        st.font.glyphs ∧
      (parse_line [69, 78, 68, 67, 72, 65, 82] st).current_glyph = none) := by
  constructor
  · intro data
    exact parse_keys_aux (splitBdfLines data) _ (by simp)
  · intro st g hcg henc
    have h1 : ¬([70, 79, 78, 84, 32].isPrefixOf
        ([69, 78, 68, 67, 72, 65, 82] : List Nat) = true) := by decide
    have h2 : ¬([83, 73, 90, 69, 32].isPrefixOf
        ([69, 78, 68, 67, 72, 65, 82] : List Nat) = true) := by decide
    have h3 : ¬([70, 79, 78, 84, 66, 79, 85, 78, 68, 73, 78, 71, 66, 79, 88,
        32].isPrefixOf ([69, 78, 68, 67, 72, 65, 82] : List Nat) = true) := by
      decide
    have h4 : ¬([83, 84, 65, 82, 84, 67, 72, 65, 82].isPrefixOf
        ([69, 78, 68, 67, 72, 65, 82] : List Nat) = true) := by decide
    have h5 : ¬([69, 78, 67, 79, 68, 73, 78, 71, 32].isPrefixOf
        ([69, 78, 68, 67, 72, 65, 82] : List Nat) = true) := by decide
    have h6 : ¬([68, 87, 73, 68, 84, 72, 32].isPrefixOf
        ([69, 78, 68, 67, 72, 65, 82] : List Nat) = true) := by decide
    have h7 : ¬([66, 66, 88, 32].isPrefixOf
        ([69, 78, 68, 67, 72, 65, 82] : List Nat) = true) := by decide
    have h8 : ¬(([69, 78, 68, 67, 72, 65, 82] : List Nat) =
        [66, 73, 84, 77, 65, 80]) := by decide
    have h9 : ¬(g.encoding < 256) := by omega
    unfold parse_line
    rw [if_neg h1, if_neg h2, if_neg h3, if_neg h4, if_neg h5, if_neg h6,
      if_neg h7, if_neg h8, if_pos rfl, hcg]
    constructor
    · dsimp only
      rw [if_neg h9]
    · dsimp only
      rw [if_neg h9]

/-- Witness for C9: an `ENDCHAR` with a pending glyph of encoding 300
inserts nothing. -/
theorem bdf_glyph_keys_witness :
    (parse_line [69, 78, 68, 67, 72, 65, 82]
      ⟨⟨FontType.BDF, [], 0, (0, 0, 0, 0), []⟩,
        some ⟨300, [], 0, 0, 0, 0, 0⟩, false, []⟩).font.glyphs =
      (⟨⟨FontType.BDF, [], 0, (0, 0, 0, 0), []⟩,
        some ⟨300, [], 0, 0, 0, 0, 0⟩, false, []⟩ : ParserState).font.glyphs :=
  (bdf_glyph_keys.2 _ ⟨300, [], 0, 0, 0, 0, 0⟩ rfl (by decide)).1

/-! ## Outline (TTF) font — `src/ttf.rs`

`rasterize_glyph` delegates to the external `ttf_parser` and
`ab_glyph_rasterizer` crates, so it is abstracted as a function parameter
`rasterize : codepoint → size → Option CachedGlyph` (deterministic, as the
source's is for a fixed font).  The cache (`BTreeMap<(u32, u32), CachedGlyph>`)
is modelled as a function `Nat × Nat → Option CachedGlyph`. -/

/-- `ttf::CachedGlyph`. -/
structure CachedGlyph where
  bitmap : List Nat
  width : Nat
  height : Nat
  bearing_x : Int
  bearing_y : Int
  advance : Nat
deriving DecidableEq

/-- `BTreeMap::insert` on the cache model. -/
def cacheInsert (cache : Nat × Nat → Option CachedGlyph) (k : Nat × Nat)
    (g : CachedGlyph) : Nat × Nat → Option CachedGlyph :=
  fun k2 => if k2 = k then some g else cache k2

/-- One character of `TtfFont::text_width`: skip newlines; otherwise
populate the cache on a miss via `rasterize` and add the cached glyph's
advance (misses that fail to rasterize add nothing). -/
def ttf_text_width_step (rasterize : Nat → Nat → Option CachedGlyph)
    (size : Nat) (acc : (Nat × Nat → Option CachedGlyph) × Nat) (ch : Nat) :
    (Nat × Nat → Option CachedGlyph) × Nat :=
  if ch = 10 then acc
  else
    let cache := acc.1
    let cache2 :=
      match cache (ch, size) with
      | some _ => cache
      | none =>
        match rasterize ch size with
        | some glyph => cacheInsert cache (ch, size) glyph
        | none => cache
    match cache2 (ch, size) with
    | some glyph => (cache2, acc.2 + glyph.advance)
    | none => (cache2, acc.2)

/-- `TtfFont::text_width`: fold the step over the text, starting from the
font's current cache, and return the accumulated width. -/
def ttf_text_width (rasterize : Nat → Nat → Option CachedGlyph)
    (cache : Nat × Nat → Option CachedGlyph) (text : List Nat) (size : Nat) :
    Nat :=
  (text.foldl (ttf_text_width_step rasterize size) (cache, 0)).2

/-- The advance a character contributes under a rasterizer model. -/
def advanceOf (rasterize : Nat → Nat → Option CachedGlyph) (size ch : Nat) :
    Nat :=
  match rasterize ch size with
  | some glyph => glyph.advance
  | none => 0

/-- Newline-separated lines of a text. -/
def splitOnNl (text : List Nat) : List (List Nat) :=
  text.foldr
    (fun ch acc => if ch = 10 then [] :: acc else (ch :: acc.headD []) :: acc.tail)
    [[]]

/-- Modelled from the spec's words for claim C7 (the implementation to
compare against): "sum advances across a line … track the maximum line
width" — the maximum over the newline-separated lines of the sum of the
scaled glyph advances on that line. -/
def ttf_text_width_specModel (rasterize : Nat → Nat → Option CachedGlyph)
    (text : List Nat) (size : Nat) : Nat :=
  ((splitOnNl text).map
    (fun line => (line.map (advanceOf rasterize size)).sum)).foldl max 0

/-- A rasterizer model mapping codepoint 97 at size 12 to a glyph with
advance 5 and everything else to `none`. -/
def rasterCex : Nat → Nat → Option CachedGlyph :=
  fun ch size => if ch = 97 ∧ size = 12 then some ⟨[], 0, 0, 0, 0, 5⟩ else none

/-- Counterexample to claim C7: on the two-line text `"a\na"`, the source's
`text_width` returns the sum of all advances (10), not the maximum line
width (5): it skips newlines without resetting or maximizing. -/
theorem ttf_text_width_cex :
    ttf_text_width rasterCex (fun _ => none) [97, 10, 97] 12 = 10 ∧
    ttf_text_width_specModel rasterCex [97, 10, 97] 12 = 5 ∧
    (10 : Nat) ≠ 5 := by
  refine ⟨by decide, by decide, by decide⟩

/-- Caches whose every entry agrees with the rasterizer (the only caches
the source can build). -/
def cacheConsistent (rasterize : Nat → Nat → Option CachedGlyph)
    (cache : Nat × Nat → Option CachedGlyph) : Prop :=
  ∀ ch size g, cache (ch, size) = some g → rasterize ch size = some g

/-- Inserting a rasterizer result preserves cache consistency. -/
theorem cacheConsistent_insert (rasterize : Nat → Nat → Option CachedGlyph)
    (cache : Nat × Nat → Option CachedGlyph) (ch size : Nat)
    (g : CachedGlyph) (hc : cacheConsistent rasterize cache)
    (hr : rasterize ch size = some g) :
    cacheConsistent rasterize (cacheInsert cache (ch, size) g) := by
  intro c s g2 h2
  unfold cacheInsert at h2
  by_cases he : ((c, s) : Nat × Nat) = (ch, size)
  · rw [if_pos he] at h2
    obtain ⟨rfl, rfl⟩ := Prod.mk.injEq .. ▸ he
    rw [hr]
    exact h2 ▸ rfl
  · rw [if_neg he] at h2
    exact hc c s g2 h2

/-- The width fold adds exactly the rasterizer advances of the non-newline
characters, for any consistent starting cache. -/
theorem ttf_width_fold (rasterize : Nat → Nat → Option CachedGlyph)
    (size : Nat) :
    ∀ (text : List Nat) (cache : Nat × Nat → Option CachedGlyph) (w : Nat),
      cacheConsistent rasterize cache →
      (text.foldl (ttf_text_width_step rasterize size) (cache, w)).2 =
        w + ((text.filter (fun ch => ch ≠ 10)).map
          (advanceOf rasterize size)).sum := by
  intro text
  induction text with
  | nil =>
    intro cache w _
    simp
  | cons ch rest ih =>
    intro cache w hc
    rw [List.foldl_cons]
    by_cases h10 : ch = 10
    · rw [show ttf_text_width_step rasterize size (cache, w) ch = (cache, w) by
        unfold ttf_text_width_step; rw [if_pos h10]]
      rw [ih cache w hc]
      simp [List.filter_cons, h10]
    · cases hck : cache (ch, size) with
      | some g =>
        have hr : rasterize ch size = some g := hc ch size g hck
        rw [show ttf_text_width_step rasterize size (cache, w) ch =
            (cache, w + g.advance) by
          unfold ttf_text_width_step
          rw [if_neg h10]
          simp only [hck]]
        rw [ih cache (w + g.advance) hc]
        simp [List.filter_cons, h10, advanceOf, hr]
        omega
      | none =>
        cases hr : rasterize ch size with
        | some g =>
          rw [show ttf_text_width_step rasterize size (cache, w) ch =
              (cacheInsert cache (ch, size) g, w + g.advance) by
            unfold ttf_text_width_step
            rw [if_neg h10]
            simp only [hck, hr, cacheInsert, if_pos]]
          rw [ih (cacheInsert cache (ch, size) g) (w + g.advance)
            (cacheConsistent_insert rasterize cache ch size g hc hr)]
          simp [List.filter_cons, h10, advanceOf, hr]
          omega
        | none =>
          rw [show ttf_text_width_step rasterize size (cache, w) ch =
              (cache, w) by
            unfold ttf_text_width_step
            rw [if_neg h10]
            simp only [hck, hr]]
          rw [ih cache w hc]
          simp [List.filter_cons, h10, advanceOf, hr]
  
/-- Claim C7 (amended): for every rasterizer model, consistent cache, text
and size, `text_width` returns the *sum* of the scaled advances of all
non-newline characters of the whole text (newlines are skipped and
contribute nothing; characters that fail to rasterize contribute nothing);
it does not take a per-line maximum. -/
theorem ttf_text_width_sum (rasterize : Nat → Nat → Option CachedGlyph)
    (cache : Nat × Nat → Option CachedGlyph) (text : List Nat) (size : Nat)
    (h : cacheConsistent rasterize cache) :
    ttf_text_width rasterize cache text size =
      ((text.filter (fun ch => ch ≠ 10)).map (advanceOf rasterize size)).sum := by
  unfold ttf_text_width
  rw [ttf_width_fold rasterize size text cache 0 h]
  omega

/-- Witness for the amended C7 theorem on a concrete text and rasterizer
(the empty cache is vacuously consistent). -/
theorem ttf_text_width_sum_witness :
    ttf_text_width rasterCex (fun _ => none) [97, 97] 12 =
      ((([97, 97] : List Nat).filter (fun ch => ch ≠ 10)).map
        (advanceOf rasterCex 12)).sum :=
  ttf_text_width_sum rasterCex (fun _ => none) [97, 97] 12
    (fun _ _ _ hh => Option.noConfusion hh)


/-! ## BMP decoder — `src/bmp.rs`

Byte buffers are `List Nat`; in-range reads use `getD _ 0`, which the
decoder only performs after its explicit length checks, exactly as the
source indexes slices only after checking `pixel_data.len()`. -/

/-- Little-endian value of `n` bytes at `off` (0 beyond the end; the
callers check the range first). -/
def leVal (bytes : List Nat) (off : Nat) : Nat → Nat
  | 0 => 0
  | n + 1 => bytes.getD off 0 + 256 * leVal bytes (off + 1) n

/-- `bmp::read_u16_le`. -/
def read_u16_le (bytes : List Nat) (off : Nat) : Except String Nat :=
  if off + 2 ≤ bytes.length then .ok (leVal bytes off 2)
  else .error "Out of bounds read"

/-- `bmp::read_u32_le`. -/
def read_u32_le (bytes : List Nat) (off : Nat) : Except String Nat :=
  if off + 4 ≤ bytes.length then .ok (leVal bytes off 4)
  else .error "Out of bounds read"

/-- Reinterpret a `u32` bit pattern as an `i32` (two's complement). -/
def toI32 (n : Nat) : Int :=
  if n < 2 ^ 31 then (n : Int) else (n : Int) - 2 ^ 32

/-- `bmp::read_i32_le`. -/
def read_i32_le (bytes : List Nat) (off : Nat) : Except String Int :=
  if off + 4 ≤ bytes.length then .ok (toI32 (leVal bytes off 4))
  else .error "Out of bounds read"

/-- The Rust cast `(n : i32) as u32` (two's complement). -/
def i32AsU32 (n : Int) : Nat := (n % 2 ^ 32).toNat

/-- `bmp::parse_24bit`: row size padded to 4 bytes, `checked_mul`/
`checked_add` modelled as explicit `u32::MAX` range checks, then the
row-major B,G,R,255 pixel emission (bottom-up unless `top_down`). -/
def parse_24bit (pd : List Nat) (width height : Nat) (top_down : Bool) :
    Except String (List Nat) :=
  if 4294967295 < width * 3 then .error "Row size overflow"
  else if 4294967295 < width * 3 + 3 then .error "Row size overflow"
  else if 4294967295 < (width * 3 + 3) / 4 * 4 * height then
    .error "Data size overflow"
  else if pd.length < (width * 3 + 3) / 4 * 4 * height then
    .error "Insufficient pixel data"
  else .ok ((List.range height).flatMap (fun y =>
    (List.range width).flatMap (fun x =>
      [pd.getD ((if top_down then y else height - 1 - y) *
          ((width * 3 + 3) / 4 * 4) + x * 3) 0,
       pd.getD ((if top_down then y else height - 1 - y) *
          ((width * 3 + 3) / 4 * 4) + x * 3 + 1) 0,
       pd.getD ((if top_down then y else height - 1 - y) *
          ((width * 3 + 3) / 4 * 4) + x * 3 + 2) 0,
       255])))

/-- `bmp::parse_32bit`: 4 bytes/pixel rows, alpha taken from the source. -/
def parse_32bit (pd : List Nat) (width height : Nat) (top_down : Bool) :
    Except String (List Nat) :=
  if 4294967295 < width * 4 then .error "Row size overflow"
  else if 4294967295 < width * 4 * height then .error "Data size overflow"
  else if pd.length < width * 4 * height then .error "Insufficient pixel data"
  else .ok ((List.range height).flatMap (fun y =>
    (List.range width).flatMap (fun x =>
      [pd.getD ((if top_down then y else height - 1 - y) * (width * 4) +
          x * 4) 0,
       pd.getD ((if top_down then y else height - 1 - y) * (width * 4) +
          x * 4 + 1) 0,
       pd.getD ((if top_down then y else height - 1 - y) * (width * 4) +
          x * 4 + 2) 0,
       pd.getD ((if top_down then y else height - 1 - y) * (width * 4) +
          x * 4 + 3) 0])))

/-- `bmp::BmpImage`. -/
structure BmpImage where
  width : Nat
  height : Nat
  data : List Nat
deriving DecidableEq

/-- `BmpImage::from_bytes`: header validation in source order, then the
depth-dispatched pixel parse. -/
def BmpImage.from_bytes (bytes : List Nat) : Except String BmpImage :=
  if bytes.length < 54 then .error "File too small"
  else if bytes.getD 0 0 ≠ 66 ∨ bytes.getD 1 0 ≠ 77 then .error "Not a BMP file"
  else
    match read_u32_le bytes 14 with
    | .error e => .error e
    | .ok dib_header_size =>
      if dib_header_size < 40 then .error "Unsupported BMP format"
      else
        match read_i32_le bytes 18 with
        | .error e => .error e
        | .ok width_signed =>
          match read_i32_le bytes 22 with
          | .error e => .error e
          | .ok height_signed =>
            if i32AsU32 width_signed = 0 ∨ height_signed.natAbs = 0 then
              .error "Invalid dimensions"
            else
              match read_u16_le bytes 26 with
              | .error e => .error e
              | .ok planes =>
                match read_u16_le bytes 28 with
                | .error e => .error e
                | .ok bits_per_pixel =>
                  match read_u32_le bytes 30 with
                  | .error e => .error e
                  | .ok compression =>
                    if planes ≠ 1 then .error "Invalid planes"
                    else if compression ≠ 0 ∧ compression ≠ 3 then
                      .error "Compressed BMP not supported"
                    else
                      match read_u32_le bytes 10 with
                      | .error e => .error e
                      | .ok data_offset =>
                        if bytes.length ≤ data_offset then
                          .error "Invalid data offset"
                        else
                          match (if bits_per_pixel = 24 then
                              parse_24bit (bytes.drop data_offset)
                                (i32AsU32 width_signed) height_signed.natAbs
                                (decide (height_signed < 0))
                            else if bits_per_pixel = 32 then
                              parse_32bit (bytes.drop data_offset)
                                (i32AsU32 width_signed) height_signed.natAbs
                                (decide (height_signed < 0))
                            else .error "Only 24 or 32-bit BMP supported") with
                          | .error e => .error e
                          | .ok bgra_data =>
                            .ok ⟨i32AsU32 width_signed, height_signed.natAbs,
                              bgra_data⟩

/-- The all-opaque-red 4-bytes/pixel buffer for `n` pixels, in the
decoder's canonical B,G,R,A order. -/
def allRedPixels (n : Nat) : List Nat :=
  List.flatten (List.replicate n [0, 0, 255, 255])

/-- Pointwise-equal functions give equal `flatMap`s. -/
theorem flatMap_congr_own {α β : Type} (l : List α) (f g : α → List β)
    (h : ∀ a ∈ l, f a = g a) : l.flatMap f = l.flatMap g := by
  induction l with
  | nil => rfl
  | cons a rest ih =>
    simp only [List.flatMap_cons]
    rw [h a (by simp), ih (fun a2 ha => h a2 (by simp [ha]))]

/-- `flatMap` of a `map` composes the functions. -/
theorem flatMap_map_own {α β γ : Type} (l : List α) (f : α → β)
    (g : β → List γ) :
    (l.map f).flatMap g = l.flatMap (fun a => g (f a)) := by
  induction l with
  | nil => rfl
  | cons a rest ih => simp only [List.map_cons, List.flatMap_cons, ih]

/-- A constant `flatMap` over `range n` is a join of replicas. -/
theorem flatMap_const_own {β : Type} (n : Nat) (L : List β) :
    (List.range n).flatMap (fun _ => L) = List.flatten (List.replicate n L) := by
  induction n with
  | zero => rfl
  | succ n ih =>
    rw [List.range_succ_eq_map, List.flatMap_cons, flatMap_map_own, ih,
      List.replicate_succ, List.flatten_cons]

/-- Joining `a` replicas of a join of `b` replicas is a join of `a * b`
replicas. -/
theorem join_replicate_mul_own {β : Type} (a b : Nat) (L : List β) :
    List.flatten (List.replicate a (List.flatten (List.replicate b L))) =
      List.flatten (List.replicate (a * b) L) := by
  induction a with
  | zero =>
    rw [Nat.zero_mul]
    rfl
  | succ a ih =>
    rw [List.replicate_succ, List.flatten_cons, ih,
      show a.succ * b = b + a * b by rw [Nat.succ_mul, Nat.add_comm], List.replicate_add,
      List.flatten_append]

/-- Length of a join of replicas. -/
theorem join_replicate_length_own {β : Type} (n : Nat) (L : List β) :
    (List.flatten (List.replicate n L)).length = n * L.length := by
  induction n with
  | zero => rw [Nat.zero_mul]; rfl
  | succ n ih =>
    rw [List.replicate_succ, List.flatten_cons, List.length_append, ih,
      Nat.succ_mul]
    omega

/-- `parse_24bit` on an in-range all-red pixel array yields the all-red
4-bytes/pixel buffer, for either row order. -/
theorem parse_24bit_red (pd : List Nat) (w h : Nat) (td : Bool)
    (hw3 : w * 3 + 3 ≤ 4294967295)
    (hrow : (w * 3 + 3) / 4 * 4 * h ≤ 4294967295)
    (hlen : (w * 3 + 3) / 4 * 4 * h ≤ pd.length)
    (hred : ∀ r < h, ∀ x < w,
      pd.getD (r * ((w * 3 + 3) / 4 * 4) + x * 3) 0 = 0 ∧
      pd.getD (r * ((w * 3 + 3) / 4 * 4) + x * 3 + 1) 0 = 0 ∧
      pd.getD (r * ((w * 3 + 3) / 4 * 4) + x * 3 + 2) 0 = 255) :
    parse_24bit pd w h td = .ok (allRedPixels (w * h)) := by
  unfold parse_24bit
  rw [if_neg (by omega), if_neg (by omega), if_neg (by omega),
    if_neg (by omega)]
  congr 1
  have hrowred : ∀ y ∈ List.range h,
      (List.range w).flatMap (fun x =>
        [pd.getD ((if td then y else h - 1 - y) * ((w * 3 + 3) / 4 * 4) +
            x * 3) 0,
         pd.getD ((if td then y else h - 1 - y) * ((w * 3 + 3) / 4 * 4) +
            x * 3 + 1) 0,
         pd.getD ((if td then y else h - 1 - y) * ((w * 3 + 3) / 4 * 4) +
            x * 3 + 2) 0,
         255]) =
      (List.range w).flatMap (fun _ => ([0, 0, 255, 255] : List Nat)) := by
    intro y hy
    have hyh : y < h := List.mem_range.mp hy
    have hay : (if td then y else h - 1 - y) < h := by
      split <;> omega
    apply flatMap_congr_own
    intro x hx
    obtain ⟨e1, e2, e3⟩ := hred _ hay x (List.mem_range.mp hx)
    rw [e1, e2, e3]
  rw [flatMap_congr_own _ _ _ hrowred, flatMap_const_own,
    flatMap_const_own, join_replicate_mul_own, Nat.mul_comm h w]
  rfl

/-- "A well-formed 24-bit uncompressed all-red bitmap of dimensions
`w × h`": the magic, header fields, ranges and pixel bytes that make
`from_bytes` take the 24-bit path with every source pixel red. -/
def WellFormedRed24 (bytes : List Nat) (w h : Nat) : Prop :=
  54 ≤ bytes.length ∧
  bytes.getD 0 0 = 66 ∧
  bytes.getD 1 0 = 77 ∧
  40 ≤ leVal bytes 14 4 ∧
  leVal bytes 18 4 = w ∧ 0 < w ∧ w < 2 ^ 31 ∧
  (toI32 (leVal bytes 22 4)).natAbs = h ∧ 0 < h ∧
  leVal bytes 26 2 = 1 ∧
  leVal bytes 28 2 = 24 ∧
  leVal bytes 30 4 = 0 ∧
  leVal bytes 10 4 < bytes.length ∧
  w * 3 + 3 ≤ 4294967295 ∧
  (w * 3 + 3) / 4 * 4 * h ≤ 4294967295 ∧
  (w * 3 + 3) / 4 * 4 * h ≤ (bytes.drop (leVal bytes 10 4)).length ∧
  (∀ r < h, ∀ x < w,
    (bytes.drop (leVal bytes 10 4)).getD
      (r * ((w * 3 + 3) / 4 * 4) + x * 3) 0 = 0 ∧
    (bytes.drop (leVal bytes 10 4)).getD
      (r * ((w * 3 + 3) / 4 * 4) + x * 3 + 1) 0 = 0 ∧
    (bytes.drop (leVal bytes 10 4)).getD
      (r * ((w * 3 + 3) / 4 * 4) + x * 3 + 2) 0 = 255)

instance (bytes : List Nat) (w h : Nat) :
    Decidable (WellFormedRed24 bytes w h) := by
  unfold WellFormedRed24
  exact inferInstance

/-- Claim C8: decoding a well-formed 24-bit uncompressed bitmap whose
every source pixel is red yields `Ok` with a buffer of exactly 4 bytes per
pixel (length `4 * w * h`) in which every pixel is `[0, 0, 255, 255]`
(blue 0, green 0, red 255, alpha 255, the decoder's canonical order). -/
theorem bmp_red_decode (bytes : List Nat) (w h : Nat)
    (hwf : WellFormedRed24 bytes w h) :
    BmpImage.from_bytes bytes = .ok ⟨w, h, allRedPixels (w * h)⟩ ∧
    (allRedPixels (w * h)).length = 4 * (w * h) := by
  obtain ⟨hlen, hB, hM, hdib, hw18, hwpos, hw31, hh22, hhpos, hplanes, hbpp,
    hcomp, hoff, hw3, hrowsz, hpdlen, hred⟩ := hwf
  constructor
  · have hr14 : read_u32_le bytes 14 = .ok (leVal bytes 14 4) := by
      unfold read_u32_le
      rw [if_pos (by omega)]
    have hr18 : read_i32_le bytes 18 = .ok (toI32 (leVal bytes 18 4)) := by
      unfold read_i32_le
      rw [if_pos (by omega)]
    have hr22 : read_i32_le bytes 22 = .ok (toI32 (leVal bytes 22 4)) := by
      unfold read_i32_le
      rw [if_pos (by omega)]
    have hr26 : read_u16_le bytes 26 = .ok (leVal bytes 26 2) := by
      unfold read_u16_le
      rw [if_pos (by omega)]
    have hr28 : read_u16_le bytes 28 = .ok (leVal bytes 28 2) := by
      unfold read_u16_le
      rw [if_pos (by omega)]
    have hr30 : read_u32_le bytes 30 = .ok (leVal bytes 30 4) := by
      unfold read_u32_le
      rw [if_pos (by omega)]
    have hr10 : read_u32_le bytes 10 = .ok (leVal bytes 10 4) := by
      unfold read_u32_le
      rw [if_pos (by omega)]
    have hwcast : i32AsU32 (toI32 (leVal bytes 18 4)) = w := by
      unfold toI32 i32AsU32
      rw [hw18, if_pos (by exact_mod_cast by omega)]
      omega
    have hp24 : parse_24bit (bytes.drop (leVal bytes 10 4)) w h
        (decide (toI32 (leVal bytes 22 4) < 0)) =
        .ok (allRedPixels (w * h)) :=
      parse_24bit_red _ w h _ hw3 hrowsz hpdlen hred
    unfold BmpImage.from_bytes
    rw [if_neg (by omega), if_neg (by rw [hB, hM]; exact (by decide)), hr14]
    dsimp only
    rw [if_neg (by omega), hr18]
    dsimp only
    rw [hr22]
    dsimp only
    rw [hwcast, hh22, if_neg (by omega), hr26]
    dsimp only
    rw [hr28]
    dsimp only
    rw [hr30]
    dsimp only
    rw [hplanes, hbpp, hcomp]
    rw [if_neg (by decide), if_neg (by decide), hr10]
    dsimp only
    rw [if_neg (by omega), if_pos rfl, hp24]
  · unfold allRedPixels
    rw [join_replicate_length_own]
    simp
    omega

/-- A concrete 2×2 all-red 24-bit BMP file: 54-byte header (data offset
54, DIB size 40, width 2, height 2, planes 1, bpp 24, no compression)
followed by two 8-byte rows of B,G,R = 0,0,255 pixels and padding. -/
def redBmpBytes : List Nat :=
  [66, 77, 70, 0, 0, 0, 0, 0, 0, 0, 54, 0, 0, 0,
   40, 0, 0, 0, 2, 0, 0, 0, 2, 0, 0, 0, 1, 0, 24, 0,
   0, 0, 0, 0, 0, 0, 0, 0, 0, 0, 0, 0, 0, 0, 0, 0,
   0, 0, 0, 0, 0, 0, 0, 0,
   0, 0, 255, 0, 0, 255, 0, 0,
   0, 0, 255, 0, 0, 255, 0, 0]

/-- Witness for C8: the concrete 2×2 red BMP decodes to four opaque-red
pixels. -/
theorem bmp_red_decode_witness :
    BmpImage.from_bytes redBmpBytes = .ok ⟨2, 2, allRedPixels (2 * 2)⟩ :=
  (bmp_red_decode redBmpBytes 2 2 (by decide)).1


end SightLib
